import Mathlib

/-!
Shallow embedding of `backend/services/chunking_service.py` (`ChunkingService`).

The Python service is pure apart from logging and the timestamp; the timestamp
is modelled as an explicit `now : String` argument.  A call that raises is
modelled as `some (Except.error e)`, a call that returns as
`some (Except.ok d)`, and a call that never returns (the `fixed_size`
sliding-window loop can fail to advance) as `none`: the loop is run on fuel
`words.length + 2`, which is enough for every terminating execution, since a
terminating run advances `start` by at least one word per iteration.
-/

set_option linter.unusedVariables false

/-- Characters Python's `str.split()` / `str.strip()` treat as whitespace. -/
def wsChar (c : Char) : Bool := c.isWhitespace

/-- Accumulator pass of Python `str.split()` (whitespace tokenization, empty
tokens dropped); `cur` holds the current word reversed. -/
def wordsAux : List Char → List Char → List (List Char)
  | [], cur => if cur = [] then [] else [cur.reverse]
  | c :: rest, cur =>
    if wsChar c then
      if cur = [] then wordsAux rest [] else cur.reverse :: wordsAux rest []
    else wordsAux rest (c :: cur)

/-- Python `str.split()`: maximal runs of non-whitespace characters. -/
def pyWords (s : String) : List String := (wordsAux s.data []).map String.mk

/-- List-level Python `str.strip()`: drop leading and trailing whitespace. -/
def stripL (l : List Char) : List Char :=
  ((l.dropWhile wsChar).reverse.dropWhile wsChar).reverse

/-- Python `str.strip()`. -/
def pyStrip (s : String) : String := String.mk (stripL s.data)

/-- Python `" ".join(words)`. -/
def joinSpace (ws : List String) : String :=
  String.mk (List.intercalate [' '] (ws.map String.data))

/-- A `page_map` entry: `{page: int, text: str}` as produced by the loader. -/
structure PageEntry where
  page : Nat
  text : String
deriving DecidableEq, Repr

/-- Per-chunk metadata dict built by `chunk_text`. -/
structure ChunkMetadata where
  chunk_id : Nat
  page_number : Nat
  page_range : String
  word_count : Nat
deriving DecidableEq, Repr

/-- One chunk: `{content, metadata}`. -/
structure Chunk where
  content : String
  metadata : ChunkMetadata
deriving DecidableEq, Repr

/-- The `document_data` dict returned by `chunk_text`. -/
structure DocumentData where
  filename : String
  total_chunks : Nat
  total_pages : Nat
  loading_method : String
  chunking_method : String
  timestamp : String
  chunks : List Chunk
deriving DecidableEq, Repr

/-- The document `metadata` dict: only `filename` and `loading_method` are
read, via `.get(key, "")`. -/
structure DocMeta where
  filename : Option String
  loading_method : Option String
deriving DecidableEq, Repr

/-- The two `ValueError`s `chunk_text` can raise. -/
inductive ChunkError where
  | invalidInput
  | unsupportedMethod
deriving DecidableEq, Repr

/-- The `while start < len(words)` loop of `_fixed_size_chunks`
(chunking_service.py lines 154-162), run on explicit fuel; `none` means the
fuel ran out, i.e. the Python loop did not finish within that many
iterations. -/
def fixed_size_loop (words : List String) (wpc ow : Nat) :
    Nat → Nat → List String → Option (List String)
  | 0, _, _ => none
  | fuel + 1, start, acc =>
    if start < words.length then
      let e := min words.length (start + wpc)
      let ct := joinSpace ((words.drop start).take (e - start))
      let acc2 := if pyStrip ct = "" then acc else acc ++ [ct]
      if words.length ≤ e then some acc2
      else fixed_size_loop words wpc ow fuel (e - ow) acc2
    else some acc

/-- `_fixed_size_chunks` (chunking_service.py lines 132-164): word-budget
sliding window with approximate overlap.  The chunk dicts are modelled as the
bare strings. -/
def fixed_size_chunks (text : String) (chunk_size chunk_overlap : Int) :
    Option (List String) :=
  if chunk_size ≤ 0 then some [text]
  else
    let words := pyWords text
    let wpc := max 1 (chunk_size.toNat / 6)
    let ow := if chunk_overlap ≤ 0 then 0 else chunk_overlap.toNat / 6
    fixed_size_loop words wpc ow (words.length + 2) 0 []

/-- List-level split on a non-empty separator, scanning left to right with
fuel (one character is consumed per step, so `l.length + 1` fuel is enough);
`cur` holds the current segment reversed. -/
def splitOnFuel (sep : List Char) : Nat → List Char → List Char → List (List Char)
  | 0, l, cur => [cur.reverse ++ l]
  | fuel + 1, l, cur =>
    match l with
    | [] => [cur.reverse]
    | c :: rest =>
      if sep.isPrefixOf l then
        cur.reverse :: splitOnFuel sep fuel (l.drop sep.length) []
      else
        splitOnFuel sep fuel rest (c :: cur)

/-- List-level Python `text.split(sep)`. -/
def splitOnL (sep l : List Char) : List (List Char) :=
  if sep = [] then [l] else splitOnFuel sep (l.length + 1) l []

/-- `_paragraph_chunks` (chunking_service.py lines 166-177):
`[p.strip() for p in text.split('\n\n') if p.strip()]`. -/
def paragraph_chunks (text : String) : List String :=
  ((splitOnL "\n\n".data text.data).map String.mk).filterMap
    (fun p => if pyStrip p = "" then none else some (pyStrip p))

/-- Modelled from the spec: reattach the separator to every segment except the
last, so that splitting keeps the separator with the preceding segment. -/
def attachSep (sep : String) : List String → List String
  | [] => []
  | [p] => [p]
  | p :: rest => (p ++ sep) :: attachSep sep rest

/-- Modelled from the spec: split `text` on `sep`, keeping the separator
attached to the preceding segment (spec section 4, step 1 of the recursive
separator algorithm). -/
def splitKeepSep (sep text : String) : List String :=
  attachSep sep ((splitOnL sep.data text.data).map String.mk)

/-- Modelled from the spec: emit a buffer as a chunk unless it is empty or
whitespace-only (spec: "Empty or whitespace-only candidate chunks are
dropped"). -/
def flushChunk (buf : String) : List String :=
  if pyStrip buf = "" then [] else [buf]

/-- Modelled from the spec: the trailing `chunk_overlap` characters of a
chunk, used to seed the next buffer (spec section 4, step 4). -/
def tailOverlap (chunk_overlap : Int) (s : String) : String :=
  String.mk (s.data.drop (s.data.length - chunk_overlap.toNat))

/-- Modelled from the spec: greedy merge of segments into budget-sized chunks
(spec section 4, steps 2-4).  `recur` splits an oversized segment with the
remaining separators; after flushing a chunk the next buffer is seeded with
its trailing `chunk_overlap` characters. -/
def mergeSegs (chunk_size chunk_overlap : Int) (recur : String → List String) :
    List String → String → List String
  | [], buf => flushChunk buf
  | seg :: more, buf =>
    if chunk_size < (seg.length : Int) then
      flushChunk buf ++ recur seg ++ mergeSegs chunk_size chunk_overlap recur more ""
    else if buf ≠ "" ∧ chunk_size < ((buf.length + seg.length : Nat) : Int) then
      flushChunk buf ++
        mergeSegs chunk_size chunk_overlap recur more (tailOverlap chunk_overlap buf ++ seg)
    else
      mergeSegs chunk_size chunk_overlap recur more (buf ++ seg)

/-- Modelled from the spec: the source delegates `by_sentences` and
`by_separators` splitting to langchain's `RecursiveCharacterTextSplitter`,
whose code is not part of this repository; this follows spec section 4's
recursive priority-ordered separator algorithm: try the first separator,
greedily merge segments up to `chunk_size`, seed each fresh buffer with the
previous chunk's trailing `chunk_overlap` characters, recurse into oversized
segments with the remaining separators, and emit an oversized segment as-is
when no separators remain. -/
def recSplit (chunk_size chunk_overlap : Int) : List String → String → List String
  | [], text => flushChunk text
  | sep :: rest, text =>
    mergeSegs chunk_size chunk_overlap
      (fun t => recSplit chunk_size chunk_overlap rest t)
      (splitKeepSep sep text) ""

/-- `_sentence_chunks` (chunking_service.py lines 179-195), with the splitter
modelled from the spec; the separator priority list is fixed. -/
def sentence_chunks (text : String) (chunk_size chunk_overlap : Int) : List String :=
  recSplit chunk_size chunk_overlap [".", "!", "?", "\n", " "] text

/-- `_separator_chunks` (chunking_service.py lines 216-233), with the splitter
modelled from the spec; `if not separators` installs the default list. -/
def separator_chunks (text : String) (chunk_size chunk_overlap : Int)
    (separators : Option (List String)) : List String :=
  recSplit chunk_size chunk_overlap
    (match separators with
     | some (s :: ss) => s :: ss
     | _ => ["\n\n", "\n", ". ", " "])
    text

/-- The per-page splitter each method applies (`chunk_text` lines 54-100):
`by_pages` keeps the page text whole, the others call the matching private
splitter.  `none` propagates non-termination of `_fixed_size_chunks`. -/
def pageSplits (method : String) (chunk_size chunk_overlap : Int)
    (separators : Option (List String)) (pd : PageEntry) : Option (List String) :=
  if method = "by_pages" then some [pd.text]
  else if method = "fixed_size" then fixed_size_chunks pd.text chunk_size chunk_overlap
  else if method = "by_paragraphs" then some (paragraph_chunks pd.text)
  else if method = "by_sentences" then some (sentence_chunks pd.text chunk_size chunk_overlap)
  else some (separator_chunks pd.text chunk_size chunk_overlap separators)

/-- Append one chunk to the running list, assigning
`chunk_id = len(chunks) + 1` and `word_count = len(content.split())` exactly
as every branch of `chunk_text` does (lines 57-66, 72-82, 101-111). -/
def appendChunk (chunks : List Chunk) (content : String) (page : Nat) : List Chunk :=
  chunks ++ [⟨content, ⟨chunks.length + 1, page, toString page, (pyWords content).length⟩⟩]

/-- Append every chunk produced from one page, in order. -/
def appendPageChunks (chunks : List Chunk) (page : Nat) (ts : List String) : List Chunk :=
  ts.foldl (fun acc t => appendChunk acc t page) chunks

/-- The dispatch and page loop of `chunk_text` (lines 54-113): the five known
methods fold their per-page splits into one running chunk list; any other
method raises `ValueError` (`unsupportedMethod`). -/
def buildChunks (method : String) (pm : List PageEntry) (chunk_size chunk_overlap : Int)
    (separators : Option (List String)) : Option (Except ChunkError (List Chunk)) :=
  if method = "by_pages" ∨ method = "fixed_size" ∨ method = "by_paragraphs" ∨
      method = "by_sentences" ∨ method = "by_separators" then
    (List.foldlM
      (fun acc pd =>
        (pageSplits method chunk_size chunk_overlap separators pd).map
          (fun ts => appendPageChunks acc pd.page ts))
      [] pm).map Except.ok
  else
    some (Except.error ChunkError.unsupportedMethod)

/-- `ChunkingService.chunk_text` (chunking_service.py lines 19-130).  `text`
is accepted but never read; `page_map = None` is `none`; the result record
copies `filename` and `loading_method` from `metadata` with default `""`,
and the timestamp is the supplied `now`. -/
def chunk_text (text method : String) (metadata : DocMeta)
    (page_map : Option (List PageEntry)) (chunk_size chunk_overlap : Int)
    (separators : Option (List String)) (now : String) :
    Option (Except ChunkError DocumentData) :=
  if page_map.getD [] = [] then some (Except.error ChunkError.invalidInput)
  else
    match buildChunks method (page_map.getD []) chunk_size chunk_overlap separators with
    | none => none
    | some (Except.error e) => some (Except.error e)
    | some (Except.ok chunks) =>
      some (Except.ok
        { filename := metadata.filename.getD ""
          total_chunks := chunks.length
          total_pages := (page_map.getD []).length
          loading_method := metadata.loading_method.getD ""
          chunking_method := method
          timestamp := now
          chunks := chunks })

/-- The chunk `chunk_text` builds for a whole page when the page is kept as a
single piece (`by_pages`, and `fixed_size` with `chunk_size ≤ 0`), at offset
`off` in the running list. -/
def mkPageChunk (off : Nat) (pd : PageEntry) : Chunk :=
  ⟨pd.text, ⟨off + 1, pd.page, toString pd.page, (pyWords pd.text).length⟩⟩

/-- One whole-page chunk per page, ids continuing from `off`. -/
def pagesChunks : Nat → List PageEntry → List Chunk
  | _, [] => []
  | off, pd :: rest => mkPageChunk off pd :: pagesChunks (off + 1) rest

/-- The chunk-id contiguity invariant: ids read in order are `1, 2, ...`. -/
def goodIds (chunks : List Chunk) : Prop :=
  chunks.map (fun c => c.metadata.chunk_id) = List.range' 1 chunks.length

/-! ### Whitespace-stripping helper lemmas -/

theorem dropWhile_head_false (p : Char → Bool) :
    ∀ (l : List Char) (c : Char) (t : List Char), l.dropWhile p = c :: t → p c = false := by
  intro l
  induction l with
  | nil => intro c t h; simp [List.dropWhile] at h
  | cons a l ih =>
    intro c t h
    rw [List.dropWhile_cons] at h
    cases hpa : p a with
    | true => rw [hpa] at h; simp at h; exact ih c t h
    | false =>
      rw [hpa] at h
      simp at h
      obtain ⟨rfl, -⟩ := h
      exact hpa

theorem stripL_ne_nil_has_nonws (l : List Char) (h : stripL l ≠ []) :
    ∃ c ∈ stripL l, wsChar c = false := by
  unfold stripL at *
  cases hB : (l.dropWhile wsChar).reverse.dropWhile wsChar with
  | nil => rw [hB] at h; simp at h
  | cons c t =>
    refine ⟨c, ?_, dropWhile_head_false wsChar _ c t hB⟩
    exact List.mem_reverse.mpr (List.mem_cons_self c t)

theorem stripL_ne_nil_of_nonws (l : List Char) (c : Char) (hc : c ∈ l)
    (hw : wsChar c = false) : stripL l ≠ [] := by
  intro h
  unfold stripL at h
  rw [List.reverse_eq_nil_iff, List.dropWhile_eq_nil_iff] at h
  have hcA : c ∈ l.dropWhile wsChar := by
    have hsplit := List.takeWhile_append_dropWhile (p := wsChar) (l := l)
    rw [← hsplit] at hc
    rcases List.mem_append.mp hc with h1 | h1
    · have := List.mem_takeWhile_imp h1
      rw [hw] at this
      cases this
    · exact h1
  have := h c (List.mem_reverse.mpr hcA)
  rw [hw] at this
  cases this

theorem pyStrip_eq_empty_iff (s : String) : pyStrip s = "" ↔ stripL s.data = [] := by
  constructor
  · intro h; exact congrArg String.data h
  · intro h; unfold pyStrip; rw [h]

theorem pyStrip_pyStrip_ne (s : String) (h : pyStrip s ≠ "") : pyStrip (pyStrip s) ≠ "" := by
  have h1 : stripL s.data ≠ [] := fun h0 => h ((pyStrip_eq_empty_iff s).mpr h0)
  obtain ⟨c, hc, hw⟩ := stripL_ne_nil_has_nonws _ h1
  intro h0
  exact stripL_ne_nil_of_nonws (pyStrip s).data c hc hw ((pyStrip_eq_empty_iff _).mp h0)

theorem paragraph_chunks_not_blank (text t : String) (ht : t ∈ paragraph_chunks text) :
    pyStrip t ≠ "" := by
  unfold paragraph_chunks at ht
  obtain ⟨p, hp, hpt⟩ := List.mem_filterMap.mp ht
  by_cases h0 : pyStrip p = ""
  · rw [if_pos h0] at hpt; cases hpt
  · rw [if_neg h0] at hpt
    injection hpt with h1
    subst h1
    exact pyStrip_pyStrip_ne p h0

theorem flushChunk_not_blank (buf t : String) (h : t ∈ flushChunk buf) : pyStrip t ≠ "" := by
  unfold flushChunk at h
  by_cases h0 : pyStrip buf = ""
  · rw [if_pos h0] at h; cases h
  · rw [if_neg h0] at h
    rw [List.mem_singleton] at h
    subst h
    exact h0

/-! ### Splitter output lemmas -/

theorem mergeSegs_not_blank (chunk_size chunk_overlap : Int) (recur : String → List String)
    (hrec : ∀ s t, t ∈ recur s → pyStrip t ≠ "") :
    ∀ (segs : List String) (buf t : String),
      t ∈ mergeSegs chunk_size chunk_overlap recur segs buf → pyStrip t ≠ "" := by
  intro segs
  induction segs with
  | nil => intro buf t ht; exact flushChunk_not_blank buf t ht
  | cons seg more ih =>
    intro buf t ht
    simp only [mergeSegs] at ht
    by_cases h1 : chunk_size < (seg.length : Int)
    · rw [if_pos h1] at ht
      rcases List.mem_append.mp ht with h2 | h2
      · rcases List.mem_append.mp h2 with h3 | h3
        · exact flushChunk_not_blank buf t h3
        · exact hrec seg t h3
      · exact ih "" t h2
    · rw [if_neg h1] at ht
      by_cases h2 : buf ≠ "" ∧ chunk_size < ((buf.length + seg.length : Nat) : Int)
      · rw [if_pos h2] at ht
        rcases List.mem_append.mp ht with h3 | h3
        · exact flushChunk_not_blank buf t h3
        · exact ih _ t h3
      · rw [if_neg h2] at ht
        exact ih _ t ht

theorem recSplit_not_blank (chunk_size chunk_overlap : Int) :
    ∀ (seps : List String) (text t : String),
      t ∈ recSplit chunk_size chunk_overlap seps text → pyStrip t ≠ "" := by
  intro seps
  induction seps with
  | nil => intro text t ht; exact flushChunk_not_blank _ _ ht
  | cons sep rest ih =>
    intro text t ht
    simp only [recSplit] at ht
    exact mergeSegs_not_blank _ _ _ (fun s u hu => ih s u hu) _ _ _ ht

theorem fixed_size_loop_not_blank (words : List String) (wpc ow : Nat) :
    ∀ (fuel start : Nat) (acc res : List String),
      (∀ t ∈ acc, pyStrip t ≠ "") →
      fixed_size_loop words wpc ow fuel start acc = some res →
      ∀ t ∈ res, pyStrip t ≠ "" := by
  intro fuel
  induction fuel with
  | zero => intro start acc res hacc h; simp [fixed_size_loop] at h
  | succ n ih =>
    intro start acc res hacc h
    simp only [fixed_size_loop] at h
    by_cases h1 : start < words.length
    · rw [if_pos h1] at h
      by_cases hblank :
          pyStrip (joinSpace ((words.drop start).take
            (min words.length (start + wpc) - start))) = ""
      · rw [if_pos hblank] at h
        by_cases h2 : words.length ≤ min words.length (start + wpc)
        · rw [if_pos h2] at h
          injection h with h3
          subst h3
          exact hacc
        · rw [if_neg h2] at h
          exact ih _ _ _ hacc h
      · rw [if_neg hblank] at h
        have hacc2 : ∀ t ∈ acc ++ [joinSpace ((words.drop start).take
            (min words.length (start + wpc) - start))], pyStrip t ≠ "" := by
          intro t ht
          rcases List.mem_append.mp ht with h3 | h3
          · exact hacc t h3
          · rw [List.mem_singleton] at h3
            subst h3
            exact hblank
        by_cases h2 : words.length ≤ min words.length (start + wpc)
        · rw [if_pos h2] at h
          injection h with h3
          subst h3
          exact hacc2
        · rw [if_neg h2] at h
          exact ih _ _ _ hacc2 h
    · rw [if_neg h1] at h
      injection h with h3
      subst h3
      exact hacc

theorem fixed_size_chunks_not_blank (text : String) (chunk_size chunk_overlap : Int)
    (hcs : 0 < chunk_size) (res : List String)
    (h : fixed_size_chunks text chunk_size chunk_overlap = some res) :
    ∀ t ∈ res, pyStrip t ≠ "" := by
  unfold fixed_size_chunks at h
  rw [if_neg (by omega)] at h
  exact fixed_size_loop_not_blank _ _ _ _ _ _ _ (by simp) h

theorem mergeSegs_first_flush (chunk_size chunk_overlap : Int) (recur : String → List String) :
    ∀ (segs : List String) (buf : String),
      ∃ ext rest, mergeSegs chunk_size chunk_overlap recur segs buf
        = flushChunk (buf ++ ext) ++ rest := by
  intro segs
  induction segs with
  | nil =>
    intro buf
    refine ⟨"", [], ?_⟩
    rw [String.append_empty, List.append_nil]
    rfl
  | cons seg more ih =>
    intro buf
    by_cases h1 : chunk_size < (seg.length : Int)
    · refine ⟨"", recur seg ++ mergeSegs chunk_size chunk_overlap recur more "", ?_⟩
      simp only [mergeSegs]
      rw [if_pos h1, String.append_empty, List.append_assoc]
    · by_cases h2 : buf ≠ "" ∧ chunk_size < ((buf.length + seg.length : Nat) : Int)
      · refine ⟨"", mergeSegs chunk_size chunk_overlap recur more
          (tailOverlap chunk_overlap buf ++ seg), ?_⟩
        simp only [mergeSegs]
        rw [if_neg h1, if_pos h2, String.append_empty]
      · obtain ⟨ext, rest, hext⟩ := ih (buf ++ seg)
        refine ⟨seg ++ ext, rest, ?_⟩
        simp only [mergeSegs]
        rw [if_neg h1, if_neg h2, hext, String.append_assoc]

/-! ### Chunk-list fold lemmas -/

theorem goodIds_nil : goodIds [] := rfl

theorem goodIds_appendChunk (chunks : List Chunk) (t : String) (p : Nat)
    (h : goodIds chunks) : goodIds (appendChunk chunks t p) := by
  unfold goodIds appendChunk at *
  rw [List.map_append, h, List.length_append]
  simp [List.range'_concat, Nat.add_comm]

theorem goodIds_appendPageChunks (ts : List String) :
    ∀ (chunks : List Chunk) (p : Nat), goodIds chunks →
      goodIds (appendPageChunks chunks p ts) := by
  induction ts with
  | nil => intro chunks p h; exact h
  | cons t ts ih =>
    intro chunks p h
    exact ih (appendChunk chunks t p) p (goodIds_appendChunk chunks t p h)

theorem wcOk_appendChunk (chunks : List Chunk) (t : String) (p : Nat)
    (h : ∀ c ∈ chunks, c.metadata.word_count = (pyWords c.content).length) :
    ∀ c ∈ appendChunk chunks t p, c.metadata.word_count = (pyWords c.content).length := by
  intro c hc
  unfold appendChunk at hc
  rcases List.mem_append.mp hc with h1 | h1
  · exact h c h1
  · rw [List.mem_singleton] at h1
    subst h1
    rfl

theorem wcOk_appendPageChunks (ts : List String) :
    ∀ (chunks : List Chunk) (p : Nat),
      (∀ c ∈ chunks, c.metadata.word_count = (pyWords c.content).length) →
      ∀ c ∈ appendPageChunks chunks p ts,
        c.metadata.word_count = (pyWords c.content).length := by
  induction ts with
  | nil => intro chunks p h; exact h
  | cons t ts ih =>
    intro chunks p h
    exact ih (appendChunk chunks t p) p (wcOk_appendChunk chunks t p h)

theorem contentsOk_appendChunk (Q : String → Prop) (chunks : List Chunk) (t : String) (p : Nat)
    (hQ : Q t) (h : ∀ c ∈ chunks, Q c.content) :
    ∀ c ∈ appendChunk chunks t p, Q c.content := by
  intro c hc
  unfold appendChunk at hc
  rcases List.mem_append.mp hc with h1 | h1
  · exact h c h1
  · rw [List.mem_singleton] at h1
    subst h1
    exact hQ

theorem contentsOk_appendPageChunks (Q : String → Prop) (ts : List String) :
    ∀ (chunks : List Chunk) (p : Nat),
      (∀ t ∈ ts, Q t) → (∀ c ∈ chunks, Q c.content) →
      ∀ c ∈ appendPageChunks chunks p ts, Q c.content := by
  induction ts with
  | nil => intro chunks p hts h; exact h
  | cons t ts ih =>
    intro chunks p hts h
    exact ih (appendChunk chunks t p) p (fun u hu => hts u (List.mem_cons_of_mem t hu))
      (contentsOk_appendChunk Q chunks t p (hts t (List.mem_cons_self t ts)) h)

theorem foldlM_pageSplits_inv (P : List Chunk → Prop) (method : String)
    (chunk_size chunk_overlap : Int) (separators : Option (List String)) :
    ∀ (pm : List PageEntry) (acc res : List Chunk),
      (∀ (acc2 : List Chunk) (pd : PageEntry) (ts : List String),
          pageSplits method chunk_size chunk_overlap separators pd = some ts →
          P acc2 → P (appendPageChunks acc2 pd.page ts)) →
      P acc →
      List.foldlM
        (fun acc2 pd =>
          (pageSplits method chunk_size chunk_overlap separators pd).map
            (fun ts => appendPageChunks acc2 pd.page ts))
        acc pm = some res →
      P res := by
  intro pm
  induction pm with
  | nil =>
    intro acc res hstep hacc h
    rw [List.foldlM_nil] at h
    injection h with h1
    subst h1
    exact hacc
  | cons pd pm ih =>
    intro acc res hstep hacc h
    rw [List.foldlM_cons] at h
    cases hps : pageSplits method chunk_size chunk_overlap separators pd with
    | none => rw [hps] at h; simp at h
    | some ts =>
      rw [hps] at h
      simp only [Option.map_some', Option.some_bind] at h
      exact ih _ _ hstep (hstep acc pd ts hps hacc) h

theorem buildChunks_ok (method : String) (pm : List PageEntry)
    (chunk_size chunk_overlap : Int) (separators : Option (List String))
    (chunks : List Chunk)
    (h : buildChunks method pm chunk_size chunk_overlap separators
      = some (Except.ok chunks)) :
    List.foldlM
      (fun acc2 pd =>
        (pageSplits method chunk_size chunk_overlap separators pd).map
          (fun ts => appendPageChunks acc2 pd.page ts))
      ([] : List Chunk) pm = some chunks := by
  unfold buildChunks at h
  split at h
  · cases hf : List.foldlM
        (fun acc2 pd =>
          (pageSplits method chunk_size chunk_overlap separators pd).map
            (fun ts => appendPageChunks acc2 pd.page ts))
        ([] : List Chunk) pm with
    | none => rw [hf] at h; simp at h
    | some l =>
      rw [hf] at h
      simp only [Option.map_some'] at h
      injection h with h1
      injection h1 with h2
      rw [h2]
  · simp at h

theorem chunk_text_ok (text method : String) (md : DocMeta)
    (page_map : Option (List PageEntry)) (chunk_size chunk_overlap : Int)
    (separators : Option (List String)) (now : String) (d : DocumentData)
    (h : chunk_text text method md page_map chunk_size chunk_overlap separators now
      = some (Except.ok d)) :
    buildChunks method (page_map.getD []) chunk_size chunk_overlap separators
        = some (Except.ok d.chunks) ∧
      d.total_chunks = d.chunks.length ∧
      d.total_pages = (page_map.getD []).length := by
  unfold chunk_text at h
  by_cases hpm : page_map.getD [] = []
  · rw [if_pos hpm] at h
    simp at h
  · rw [if_neg hpm] at h
    cases hb : buildChunks method (page_map.getD []) chunk_size chunk_overlap separators with
    | none => rw [hb] at h; simp at h
    | some r =>
      cases r with
      | error e => rw [hb] at h; simp at h
      | ok chunks =>
        rw [hb] at h
        injection h with h1
        injection h1 with h2
        subst h2
        exact ⟨rfl, rfl, rfl⟩

/-! ### Whole-page chunk lemmas (`by_pages`, degenerate `fixed_size`) -/

theorem pagesChunks_length : ∀ (pm : List PageEntry) (off : Nat),
    (pagesChunks off pm).length = pm.length := by
  intro pm
  induction pm with
  | nil => intro off; rfl
  | cons pd rest ih => intro off; simp [pagesChunks, ih]

theorem pagesChunks_getElem : ∀ (pm : List PageEntry) (off i : Nat),
    (pagesChunks off pm)[i]? = pm[i]?.map (fun pd => mkPageChunk (off + i) pd) := by
  intro pm
  induction pm with
  | nil => intro off i; simp [pagesChunks]
  | cons pd rest ih =>
    intro off i
    cases i with
    | zero => simp [pagesChunks]
    | succ i =>
      have harith : off + 1 + i = off + (i + 1) := by omega
      simp only [pagesChunks, List.getElem?_cons_succ, ih (off + 1) i, harith]

theorem pagesChunks_map_content : ∀ (pm : List PageEntry) (off : Nat),
    (pagesChunks off pm).map (fun c => c.content) = pm.map (fun pd => pd.text) := by
  intro pm
  induction pm with
  | nil => intro off; rfl
  | cons pd rest ih => intro off; simp [pagesChunks, mkPageChunk, ih]

theorem fold_pages_like (method : String) (chunk_size chunk_overlap : Int)
    (separators : Option (List String))
    (hps : ∀ pd : PageEntry,
      pageSplits method chunk_size chunk_overlap separators pd = some [pd.text]) :
    ∀ (pm : List PageEntry) (acc : List Chunk),
      List.foldlM
        (fun acc2 pd =>
          (pageSplits method chunk_size chunk_overlap separators pd).map
            (fun ts => appendPageChunks acc2 pd.page ts))
        acc pm = some (acc ++ pagesChunks acc.length pm) := by
  intro pm
  induction pm with
  | nil => intro acc; rw [List.foldlM_nil]; simp [pagesChunks]
  | cons pd rest ih =>
    intro acc
    rw [List.foldlM_cons, hps pd]
    simp only [Option.map_some']
    change List.foldlM _ (appendPageChunks acc pd.page [pd.text]) rest = _
    have h1 : appendPageChunks acc pd.page [pd.text]
        = acc ++ [mkPageChunk acc.length pd] := rfl
    rw [h1, ih (acc ++ [mkPageChunk acc.length pd])]
    simp [pagesChunks, List.length_append]

/-! ### Claim theorems -/

/-- C1: for every successful call to `chunk_text`, whatever method is chosen
and however many pages or sub-chunks per page exist, the `chunk_id` values of
the returned chunks, read in output order, are exactly `1, 2, ...,
total_chunks` — a contiguous ascending run starting at 1 with no gaps or
repeats — and `total_chunks` equals the length of the returned chunk list. -/
theorem chunk_id_contiguity (text method : String) (md : DocMeta)
    (page_map : Option (List PageEntry)) (chunk_size chunk_overlap : Int)
    (separators : Option (List String)) (now : String) (d : DocumentData)
    (h : chunk_text text method md page_map chunk_size chunk_overlap separators now
      = some (Except.ok d)) :
    d.chunks.map (fun c => c.metadata.chunk_id) = List.range' 1 d.chunks.length ∧
      d.total_chunks = d.chunks.length := by
  obtain ⟨hb, htc, -⟩ :=
    chunk_text_ok text method md page_map chunk_size chunk_overlap separators now d h
  refine ⟨?_, htc⟩
  have hf := buildChunks_ok method _ chunk_size chunk_overlap separators d.chunks hb
  exact foldlM_pageSplits_inv goodIds method chunk_size chunk_overlap separators _ _ _
    (fun acc2 pd ts _ hg => goodIds_appendPageChunks ts acc2 pd.page hg) goodIds_nil hf

/-- C1 witness: a concrete successful `by_pages` call with two pages. -/
theorem chunk_id_contiguity_witness :
    ([⟨"hi", ⟨1, 1, "1", 1⟩⟩, ⟨"yo ho", ⟨2, 2, "2", 2⟩⟩] : List Chunk).map
        (fun c => c.metadata.chunk_id)
      = List.range' 1 ([⟨"hi", ⟨1, 1, "1", 1⟩⟩, ⟨"yo ho", ⟨2, 2, "2", 2⟩⟩] : List Chunk).length ∧
    (2 : Nat) = ([⟨"hi", ⟨1, 1, "1", 1⟩⟩, ⟨"yo ho", ⟨2, 2, "2", 2⟩⟩] : List Chunk).length :=
  chunk_id_contiguity "" "by_pages" ⟨none, none⟩ (some [⟨1, "hi"⟩, ⟨2, "yo ho"⟩])
    1000 200 none "t0"
    { filename := "", total_chunks := 2, total_pages := 2, loading_method := "",
      chunking_method := "by_pages", timestamp := "t0",
      chunks := [⟨"hi", ⟨1, 1, "1", 1⟩⟩, ⟨"yo ho", ⟨2, 2, "2", 2⟩⟩] }
    rfl

/-- C9: for every successful call to `chunk_text`, with every method, each
returned chunk's `metadata.word_count` equals the number of
whitespace-separated tokens of that chunk's final content string. -/
theorem word_count_correctness (text method : String) (md : DocMeta)
    (page_map : Option (List PageEntry)) (chunk_size chunk_overlap : Int)
    (separators : Option (List String)) (now : String) (d : DocumentData)
    (h : chunk_text text method md page_map chunk_size chunk_overlap separators now
      = some (Except.ok d)) :
    ∀ c ∈ d.chunks, c.metadata.word_count = (pyWords c.content).length := by
  obtain ⟨hb, -, -⟩ :=
    chunk_text_ok text method md page_map chunk_size chunk_overlap separators now d h
  have hf := buildChunks_ok method _ chunk_size chunk_overlap separators d.chunks hb
  exact foldlM_pageSplits_inv
    (fun l => ∀ c ∈ l, c.metadata.word_count = (pyWords c.content).length)
    method chunk_size chunk_overlap separators _ _ _
    (fun acc2 pd ts _ hg => wcOk_appendPageChunks ts acc2 pd.page hg) (by simp) hf

/-- C9 witness: a concrete successful `by_pages` call, instantiated at its
single returned chunk. -/
theorem word_count_correctness_witness :
    (⟨"yo ho", ⟨1, 1, "1", 2⟩⟩ : Chunk).metadata.word_count
      = (pyWords (⟨"yo ho", ⟨1, 1, "1", 2⟩⟩ : Chunk).content).length :=
  word_count_correctness "" "by_pages" ⟨none, none⟩ (some [⟨1, "yo ho"⟩]) 1000 200 none "t0"
    { filename := "", total_chunks := 1, total_pages := 1, loading_method := "",
      chunking_method := "by_pages", timestamp := "t0",
      chunks := [⟨"yo ho", ⟨1, 1, "1", 2⟩⟩] }
    rfl ⟨"yo ho", ⟨1, 1, "1", 2⟩⟩ (List.mem_singleton.mpr rfl)

/-- C8: for every method and every other argument, calling `chunk_text` with
`page_map` equal to `None` or the empty list raises the invalid-input
`ValueError` ("page map is required") and produces no partial output. -/
theorem empty_page_map_invalid (text method : String) (md : DocMeta)
    (chunk_size chunk_overlap : Int) (separators : Option (List String)) (now : String) :
    chunk_text text method md none chunk_size chunk_overlap separators now
        = some (Except.error ChunkError.invalidInput) ∧
      chunk_text text method md (some []) chunk_size chunk_overlap separators now
        = some (Except.error ChunkError.invalidInput) :=
  ⟨rfl, rfl⟩

/-- C10: the `text` parameter of `chunk_text` has no influence on the result:
two calls differing only in `text` (with the timestamp input held equal, since
the timestamp is the only wall-clock dependence) return identical results; all
chunk content is derived solely from `page_map`. -/
theorem text_param_no_influence (t1 t2 method : String) (md : DocMeta)
    (page_map : Option (List PageEntry)) (chunk_size chunk_overlap : Int)
    (separators : Option (List String)) (now : String) :
    chunk_text t1 method md page_map chunk_size chunk_overlap separators now
      = chunk_text t2 method md page_map chunk_size chunk_overlap separators now := rfl

/-- C4: with `chunk_size = 30` and `chunk_overlap = 6` the word budgets are
`words_per_chunk = max 1 (30 / 6) = 5` and `overlap_words = 6 / 6 = 1`, so a
page of 12 whitespace-separated words yields exactly 3 chunks whose windows
start at word indices 0, 4 and 8 (each window takes 5 words), the last chunk
having fewer than 5 words. -/
theorem fixed_size_windowing_example :
    fixed_size_chunks "a b c d e f g h i j k l" 30 6
        = some ["a b c d e", "e f g h i", "i j k l"] ∧
      max 1 ((30 : Int).toNat / 6) = 5 ∧
      (6 : Int).toNat / 6 = 1 ∧
      joinSpace (((pyWords "a b c d e f g h i j k l").drop 0).take 5) = "a b c d e" ∧
      joinSpace (((pyWords "a b c d e f g h i j k l").drop 4).take 5) = "e f g h i" ∧
      joinSpace (((pyWords "a b c d e f g h i j k l").drop 8).take 5) = "i j k l" ∧
      (pyWords "i j k l").length < 5 :=
  ⟨rfl, rfl, rfl, rfl, rfl, rfl, by decide⟩

/-- C6: for every call with method `by_pages` on a non-empty page map, each
page produces exactly one chunk, so `total_chunks = total_pages`; each chunk's
content equals the corresponding page's text verbatim, its `page_number`
equals that page's number, and its `page_range` is that page number rendered
as a string. -/
theorem by_pages_page_fidelity (text : String) (md : DocMeta) (pm : List PageEntry)
    (chunk_size chunk_overlap : Int) (separators : Option (List String)) (now : String)
    (d : DocumentData)
    (h : chunk_text text "by_pages" md (some pm) chunk_size chunk_overlap separators now
      = some (Except.ok d)) :
    d.total_chunks = d.total_pages ∧
      ∀ i : Nat,
        d.chunks[i]?.map (fun c => c.content) = pm[i]?.map (fun pd => pd.text) ∧
        d.chunks[i]?.map (fun c => c.metadata.page_number) = pm[i]?.map (fun pd => pd.page) ∧
        d.chunks[i]?.map (fun c => c.metadata.page_range)
          = pm[i]?.map (fun pd => toString pd.page) := by
  obtain ⟨hb, htc, htp⟩ :=
    chunk_text_ok text "by_pages" md (some pm) chunk_size chunk_overlap separators now d h
  simp only [Option.getD_some] at hb htp
  have hf := buildChunks_ok "by_pages" pm chunk_size chunk_overlap separators d.chunks hb
  have hps : ∀ pd : PageEntry,
      pageSplits "by_pages" chunk_size chunk_overlap separators pd = some [pd.text] := by
    intro pd
    unfold pageSplits
    rw [if_pos rfl]
  rw [fold_pages_like "by_pages" chunk_size chunk_overlap separators hps pm []] at hf
  injection hf with h1
  have hchunks : d.chunks = pagesChunks 0 pm := by rw [← h1]; rfl
  constructor
  · rw [htc, htp, hchunks, pagesChunks_length]
  · intro i
    rw [hchunks, pagesChunks_getElem pm 0 i]
    cases pm[i]? with
    | none => simp
    | some pd => simp [mkPageChunk]

/-- C6 witness: a concrete successful `by_pages` call with two pages (the
conclusion is stated with the returned record's fields already reduced). -/
theorem by_pages_page_fidelity_witness :
    (2 : Nat) = (2 : Nat) ∧
    ∀ i : Nat,
      ([⟨"hi", ⟨1, 3, "3", 1⟩⟩, ⟨"yo ho", ⟨2, 7, "7", 2⟩⟩] : List Chunk)[i]?.map
          (fun c => c.content)
        = ([⟨3, "hi"⟩, ⟨7, "yo ho"⟩] : List PageEntry)[i]?.map (fun pd => pd.text) ∧
      ([⟨"hi", ⟨1, 3, "3", 1⟩⟩, ⟨"yo ho", ⟨2, 7, "7", 2⟩⟩] : List Chunk)[i]?.map
          (fun c => c.metadata.page_number)
        = ([⟨3, "hi"⟩, ⟨7, "yo ho"⟩] : List PageEntry)[i]?.map (fun pd => pd.page) ∧
      ([⟨"hi", ⟨1, 3, "3", 1⟩⟩, ⟨"yo ho", ⟨2, 7, "7", 2⟩⟩] : List Chunk)[i]?.map
          (fun c => c.metadata.page_range)
        = ([⟨3, "hi"⟩, ⟨7, "yo ho"⟩] : List PageEntry)[i]?.map (fun pd => toString pd.page) :=
  by_pages_page_fidelity "" ⟨none, none⟩ [⟨3, "hi"⟩, ⟨7, "yo ho"⟩] 1000 200 none "t0"
    ⟨"", 2, 2, "", "by_pages", "t0", [⟨"hi", ⟨1, 3, "3", 1⟩⟩, ⟨"yo ho", ⟨2, 7, "7", 2⟩⟩]⟩
    rfl

/-- C7: for the `fixed_size` method, if `chunk_size ≤ 0` the page's entire
text is returned as a single chunk, so a non-empty page map never yields zero
chunks: the call succeeds and returns exactly one chunk per page, each
carrying the page's full text. -/
theorem fixed_size_degenerate (text : String) (md : DocMeta) (pm : List PageEntry)
    (chunk_size chunk_overlap : Int) (separators : Option (List String)) (now : String)
    (hcs : chunk_size ≤ 0) (hpm : pm ≠ []) :
    ∃ d, chunk_text text "fixed_size" md (some pm) chunk_size chunk_overlap separators now
        = some (Except.ok d) ∧
      d.chunks.map (fun c => c.content) = pm.map (fun pd => pd.text) ∧
      d.chunks.length = pm.length := by
  have hps : ∀ pd : PageEntry,
      pageSplits "fixed_size" chunk_size chunk_overlap separators pd = some [pd.text] := by
    intro pd
    unfold pageSplits
    rw [if_neg (by decide), if_pos rfl]
    unfold fixed_size_chunks
    rw [if_pos hcs]
  unfold chunk_text
  rw [if_neg (by simpa using hpm)]
  unfold buildChunks
  rw [if_pos (Or.inr (Or.inl rfl))]
  simp only [Option.getD_some]
  rw [fold_pages_like "fixed_size" chunk_size chunk_overlap separators hps pm []]
  simp only [Option.map_some']
  refine ⟨_, rfl, ?_, ?_⟩
  · simp [pagesChunks_map_content]
  · simp [pagesChunks_length]

/-- C7 witness: `chunk_size = 0` on page text `"a b c"` yields exactly one
chunk whose content is `"a b c"`. -/
theorem fixed_size_degenerate_witness :
    ∃ d, chunk_text "" "fixed_size" ⟨none, none⟩ (some [⟨1, "a b c"⟩]) 0 200 none "t0"
        = some (Except.ok d) ∧
      d.chunks.map (fun c => c.content) = ([⟨1, "a b c"⟩] : List PageEntry).map (fun pd => pd.text) ∧
      d.chunks.length = ([⟨1, "a b c"⟩] : List PageEntry).length :=
  fixed_size_degenerate "" ⟨none, none⟩ [⟨1, "a b c"⟩] 0 200 none "t0"
    (by decide) (by decide)

/-- C2 counterexample: `by_pages` copies a page's text verbatim with no blank
check, so a whitespace-only page yields a successful call whose single chunk
has whitespace-only content; `fixed_size` with `chunk_size ≤ 0` likewise
returns the raw page text.  (`pyStrip " " = ""` certifies the content is empty
after trimming.) -/
theorem no_blank_counterexample :
    chunk_text "" "by_pages" ⟨none, none⟩ (some [⟨1, " "⟩]) 1000 200 none "t0"
        = some (Except.ok
          ⟨"", 1, 1, "", "by_pages", "t0", [⟨" ", ⟨1, 1, "1", 0⟩⟩]⟩) ∧
      pyStrip " " = "" ∧
      chunk_text "" "fixed_size" ⟨none, none⟩ (some [⟨1, " "⟩]) 0 200 none "t0"
        = some (Except.ok
          ⟨"", 1, 1, "", "fixed_size", "t0", [⟨" ", ⟨1, 1, "1", 0⟩⟩]⟩) :=
  ⟨rfl, rfl, rfl⟩

/-- C2 (amended): no chunk's content is blank after trimming for
`by_paragraphs`, `by_sentences`, `by_separators`, and for `fixed_size` with
`chunk_size > 0`; the claim fails for `by_pages` (and for `fixed_size` with
`chunk_size ≤ 0`), which return page text verbatim, blank or not — only those
splitters that the claim's cited code paths guard (`if chunk_text.strip()` /
`if p.strip()` / the modelled flush) drop blank candidates. -/
theorem no_blank_chunks_amended (text method : String) (md : DocMeta)
    (page_map : Option (List PageEntry)) (chunk_size chunk_overlap : Int)
    (separators : Option (List String)) (now : String) (d : DocumentData)
    (hm : method = "by_paragraphs" ∨ method = "by_sentences" ∨ method = "by_separators" ∨
      (method = "fixed_size" ∧ 0 < chunk_size))
    (h : chunk_text text method md page_map chunk_size chunk_overlap separators now
      = some (Except.ok d)) :
    ∀ c ∈ d.chunks, pyStrip c.content ≠ "" := by
  obtain ⟨hb, -, -⟩ :=
    chunk_text_ok text method md page_map chunk_size chunk_overlap separators now d h
  have hf := buildChunks_ok method _ chunk_size chunk_overlap separators d.chunks hb
  refine foldlM_pageSplits_inv (fun l => ∀ c ∈ l, pyStrip c.content ≠ "")
    method chunk_size chunk_overlap separators _ _ _ ?_ (by simp) hf
  intro acc2 pd ts hts hacc2
  have hts2 : ∀ t ∈ ts, pyStrip t ≠ "" := by
    rcases hm with hm | hm | hm | ⟨hm, hcs⟩ <;> subst hm <;> unfold pageSplits at hts
    · rw [if_neg (by decide), if_neg (by decide), if_pos rfl] at hts
      injection hts with h1
      subst h1
      exact fun t ht => paragraph_chunks_not_blank pd.text t ht
    · rw [if_neg (by decide), if_neg (by decide), if_neg (by decide), if_pos rfl] at hts
      injection hts with h1
      subst h1
      exact fun t ht => recSplit_not_blank chunk_size chunk_overlap _ pd.text t ht
    · rw [if_neg (by decide), if_neg (by decide), if_neg (by decide),
        if_neg (by decide)] at hts
      injection hts with h1
      subst h1
      exact fun t ht => recSplit_not_blank chunk_size chunk_overlap _ pd.text t ht
    · rw [if_neg (by decide), if_pos rfl] at hts
      exact fixed_size_chunks_not_blank pd.text chunk_size chunk_overlap hcs ts hts
  exact contentsOk_appendPageChunks (fun s => pyStrip s ≠ "") ts acc2 pd.page hts2 hacc2

/-- C2 (amended) witness: a concrete `by_paragraphs` call, instantiated at
its first returned chunk, which is non-blank. -/
theorem no_blank_chunks_amended_witness :
    pyStrip (⟨"A", ⟨1, 1, "1", 1⟩⟩ : Chunk).content ≠ "" :=
  no_blank_chunks_amended "" "by_paragraphs" ⟨none, none⟩ (some [⟨1, "A\n\nB"⟩])
    1000 200 none "t0"
    ⟨"", 2, 1, "", "by_paragraphs", "t0", [⟨"A", ⟨1, 1, "1", 1⟩⟩, ⟨"B", ⟨2, 1, "1", 1⟩⟩]⟩
    (Or.inl rfl) rfl ⟨"A", ⟨1, 1, "1", 1⟩⟩ (List.mem_cons_self _ _)

/-- C3: the `fixed_size` sliding-window loop does NOT terminate for every
combination of page text, `chunk_size` and `chunk_overlap`.  With
`chunk_size = 6` and `chunk_overlap = 6` on the two-word page `"a b"`, the
budgets are `words_per_chunk = 1` and `overlap_words = 1`, so
`start = max(0, end - overlap_words)` stays at 0 forever: the loop re-emits
the first window on every iteration and never finishes — the model returns
`none` for every amount of fuel, and the whole `chunk_text` call diverges. -/
theorem fixed_size_overlap_nontermination :
    (∀ (fuel : Nat) (acc : List String),
        fixed_size_loop (pyWords "a b") 1 1 fuel 0 acc = none) ∧
      fixed_size_chunks "a b" 6 6 = none ∧
      chunk_text "" "fixed_size" ⟨none, none⟩ (some [⟨1, "a b"⟩]) 6 6 none "t0" = none := by
  refine ⟨?_, rfl, rfl⟩
  intro fuel
  induction fuel with
  | zero => intro acc; rfl
  | succ n ih => intro acc; exact ih (acc ++ ["a"])

/-- C5 counterexample: with separators `["\n\n", "\n"]`, `chunk_size = 4` and
`chunk_overlap = 2`, the page `"ab\n\ncdefghij"` produces 2 chunks, but the
second chunk comes from recursing into an oversized segment and does not start
with the trailing 2 characters of the first chunk. -/
theorem separator_overlap_counterexample :
    chunk_text "" "by_separators" ⟨none, none⟩ (some [⟨1, "ab\n\ncdefghij"⟩]) 4 2
        (some ["\n\n", "\n"]) "t0"
      = some (Except.ok
          ⟨"", 2, 1, "", "by_separators", "t0",
            [⟨"ab\n\n", ⟨1, 1, "1", 1⟩⟩, ⟨"cdefghij", ⟨2, 1, "1", 1⟩⟩]⟩) ∧
      tailOverlap 2 "ab\n\n" = "\n\n" ∧
      "\n\n".data.isPrefixOf "cdefghij".data = false :=
  ⟨rfl, rfl, rfl⟩

/-- C5 (amended): in the modelled recursive separator splitter, whenever the
greedy merge flushes a chunk (the current buffer `buf`) because the next
segment would overflow the budget, the next buffer is seeded with the trailing
`chunk_overlap` characters of that chunk, and the next chunk flushed from that
buffer lineage extends the seed on the right — so that flushed chunk begins
with exactly the flushed chunk's trailing `chunk_overlap` characters.  Chunks
emitted by recursing into an oversized segment are not covered, which is what
the counterexample exploits. -/
theorem separator_overlap_amended (chunk_size chunk_overlap : Int)
    (recur : String → List String) (seg : String) (more : List String) (buf : String)
    (hbuf : buf ≠ "")
    (hfit : ¬ chunk_size < (seg.length : Int))
    (hover : chunk_size < ((buf.length + seg.length : Nat) : Int)) :
    (∃ pre, buf = pre ++ tailOverlap chunk_overlap buf) ∧
    ∃ ext rest,
      mergeSegs chunk_size chunk_overlap recur (seg :: more) buf
        = flushChunk buf ++
          (flushChunk (tailOverlap chunk_overlap buf ++ (seg ++ ext)) ++ rest) := by
  constructor
  · refine ⟨String.mk (buf.data.take (buf.data.length - chunk_overlap.toNat)), ?_⟩
    cases buf with
    | mk l =>
      show String.mk l
        = String.mk (l.take (l.length - chunk_overlap.toNat))
          ++ String.mk (l.drop (l.length - chunk_overlap.toNat))
      have h1 : String.mk (l.take (l.length - chunk_overlap.toNat))
            ++ String.mk (l.drop (l.length - chunk_overlap.toNat))
          = String.mk (l.take (l.length - chunk_overlap.toNat)
            ++ l.drop (l.length - chunk_overlap.toNat)) := rfl
      rw [h1, List.take_append_drop]
  · obtain ⟨ext, rest, hext⟩ := mergeSegs_first_flush chunk_size chunk_overlap recur more
      (tailOverlap chunk_overlap buf ++ seg)
    refine ⟨ext, rest, ?_⟩
    simp only [mergeSegs]
    rw [if_neg hfit, if_pos ⟨hbuf, hover⟩, hext, String.append_assoc]

/-- C5 (amended) witness: budget 4, overlap 2, previous chunk `"abcd"`, next
segment `"cd"`: the flushed chunks are `"abcd"` then `"cdcd"`, and the second
begins with `tailOverlap 2 "abcd" = "cd"`. -/
theorem separator_overlap_amended_witness :
    ((∃ pre, ("abcd" : String) = pre ++ tailOverlap 2 "abcd") ∧
      ∃ ext rest,
        mergeSegs 4 2 (fun t => recSplit 4 2 [] t) ["cd"] "abcd"
          = flushChunk "abcd" ++
            (flushChunk (tailOverlap 2 "abcd" ++ ("cd" ++ ext)) ++ rest)) :=
  separator_overlap_amended 4 2 (fun t => recSplit 4 2 [] t) "cd" [] "abcd"
    (by decide) (by decide) (by decide)
